import Mathlib

/-
Verification of the naming/serialization conventions of py-micro-plumberd.

The embedding models, from the package source:
  * `Event.__init__` / `Event.to_dict` / `Event._to_pascal_case`
    (src/py_micro_plumberd/event.py), including the Python string
    primitives they use (`str.title`, `str.split('_')`, `str.lower`,
    `str.startswith('_')`) and Python `dict` assignment semantics
    (insertion order preserved, assignment to an existing key overwrites
    in place).
  * `StreamName` and the metadata serialization, whose defining modules
    are not part of the provided sources; those are modelled from the
    specification text, as marked on each definition.
-/

set_option autoImplicit false

namespace MicroPlumberd

/-- A JSON-serializable field value, as stored in an event's `__dict__`.
Only the cases the tests exercise are needed; values are carried through
serialization unchanged, so the exact carrier is immaterial. -/
inductive Value where
  | vstr (s : String)
  | vint (n : Int)
  | vnone
  deriving DecidableEq, Repr

/-- Embedding of Python `str.title()` on a list of characters: a cased
(alphabetic) character is uppercased when the previous character was not
cased and lowercased otherwise; uncased characters pass through and reset
the flag. The flag records whether the previous character was cased. -/
def titleAux : Bool → List Char → List Char
  | _, [] => []
  | prevCased, c :: cs =>
    if c.isAlpha then
      (if prevCased then c.toLower else c.toUpper) :: titleAux true cs
    else
      c :: titleAux false cs

/-- Python `s.title()` for a string. -/
def pythonTitle (s : String) : String :=
  ⟨titleAux false s.data⟩

/-- Embedding of Python `s.split('_')`, presented as the first
underscore-free chunk together with the list of remaining chunks
(a split result is never empty, which this shape makes structural). -/
def splitU : List Char → List Char × List (List Char)
  | [] => ([], [])
  | c :: cs =>
    if c = '_' then ([], (splitU cs).1 :: (splitU cs).2)
    else (c :: (splitU cs).1, (splitU cs).2)

/-- The full list of chunks of Python `s.split('_')`. -/
def splitUnderscore (cs : List Char) : List (List Char) :=
  (splitU cs).1 :: (splitU cs).2

/-- Embedding of `Event._to_pascal_case` from event.py:
`'id'` maps to `"Id"`, otherwise the string is split on `'_'` and the
title-cased chunks are concatenated. -/
def toPascalCase (s : String) : String :=
  if s = "id" then "Id"
  else ⟨List.flatten ((splitUnderscore s.data).map (fun g => titleAux false g))⟩

/-- Embedding of Python `key.startswith('_')`. -/
def startsWithUnderscore (s : String) : Bool :=
  match s.data with
  | [] => false
  | c :: _ => c = '_'

/-- A Python dict of field values: an association list in insertion
order, with the Python invariant maintained by `dictInsert`. -/
abbrev Dict := List (String × Value)

/-- Embedding of Python `d[k] = v`: overwrite in place if the key is
present, else append at the end. -/
def dictInsert (k : String) (v : Value) : Dict → Dict
  | [] => [(k, v)]
  | (k', v') :: rest =>
    if k' = k then (k, v) :: rest else (k', v') :: dictInsert k v rest

/-- Embedding of Python `d.get(k)` / `d[k]` lookup. -/
def dictLookup (k : String) : Dict → Option Value
  | [] => none
  | (k', v) :: rest => if k' = k then some v else dictLookup k rest

/-- An event instance: its `__dict__`, the named fields in insertion
order. `Event.__init__` guarantees the first insertion is `id`. -/
structure PyEvent where
  fields : Dict
  deriving DecidableEq, Repr

/-- The loop body of `Event.to_dict`: iterate the fields in order,
skip keys starting with `'_'`, assign `result[pascal(key)] = value`. -/
def toDictLoop : Dict → Dict → Dict
  | acc, [] => acc
  | acc, (k, v) :: rest =>
    if startsWithUnderscore k then toDictLoop acc rest
    else toDictLoop (dictInsert (toPascalCase k) v acc) rest

/-- Embedding of `Event.to_dict` from event.py. -/
def PyEvent.toDict (e : PyEvent) : Dict :=
  toDictLoop [] e.fields

/-- The public fields of an event: those whose name does not start with
the private-field marker `'_'`. -/
def PyEvent.publicFields (e : PyEvent) : Dict :=
  e.fields.filter (fun kv => !(startsWithUnderscore kv.1))

/-- The loop of `Event.to_dict` embedded in an exception monad threading
the event state, so that absence of raised errors and of mutation of the
event is a provable statement rather than a convention: none of the
Python operations the loop performs (`__dict__` iteration, `startswith`,
`split`, `title`, `join`, dict assignment) can raise, and none writes to
the event, so each iteration returns the event unchanged. -/
def toDictLoopM : Dict → Dict → PyEvent → Except String (Dict × PyEvent)
  | acc, [], e => .ok (acc, e)
  | acc, (k, v) :: rest, e =>
    if startsWithUnderscore k then toDictLoopM acc rest e
    else toDictLoopM (dictInsert (toPascalCase k) v acc) rest e

/-- `Event.to_dict` in the effectful model: runs the loop on the event's
own field dict, threading the event through. -/
def PyEvent.toDictM (e : PyEvent) : Except String (Dict × PyEvent) :=
  toDictLoopM [] e.fields e

/-- The sixteen lowercase hexadecimal digit characters. -/
def hexDigits : List Char :=
  "0123456789abcdef".data

/-- The lowercase hexadecimal character for a nibble. -/
def hexChar (n : Nat) : Char :=
  hexDigits.getD (n % 16) '0'

/-- The 32 nibbles of a version-4 UUID drawn from the 128-bit random
value `r`: nibble 12 is the version `4`, nibble 16 carries the variant
(`8`, `9`, `a` or `b`), the rest are the corresponding nibbles of `r`. -/
def uuid4Nibble (r : Nat) (i : Nat) : Nat :=
  if i = 12 then 4
  else if i = 16 then 8 + r / 16 ^ 15 % 4
  else r / 16 ^ (31 - i) % 16

/-- The characters of one hyphen-separated group of `str(uuid.uuid4())`:
`len` hex characters starting at nibble index `start`. -/
def uuidGroup (r : Nat) (start len : Nat) : List Char :=
  (List.range len).map (fun i => hexChar (uuid4Nibble r (start + i)))

/-- Embedding of Python `str(uuid.uuid4())` as a function of the random
draw `r`: the canonical 8-4-4-4-12 hyphenated rendering. -/
def uuid4String (r : Nat) : String :=
  ⟨uuidGroup r 0 8 ++ '-' :: uuidGroup r 8 4 ++ '-' :: uuidGroup r 12 4 ++
    '-' :: uuidGroup r 16 4 ++ '-' :: uuidGroup r 20 12⟩

/-- Embedding of Python `s.lower()`. -/
def pythonLower (s : String) : String :=
  ⟨s.data.map Char.toLower⟩

/-- Embedding of `Event.__init__`: the identifier assigned to a fresh
event, `str(uuid.uuid4()).lower()`, as a function of the random draw. -/
def eventInitId (r : Nat) : String :=
  pythonLower (uuid4String r)

/-- An event as constructed by `Event.__init__` followed by the
subclass's own attribute assignments: `self.id` is inserted first, then
each further assignment updates the `__dict__` under Python semantics. -/
def mkEvent (r : Nat) (assigns : Dict) : PyEvent :=
  ⟨assigns.foldl (fun d kv => dictInsert kv.1 kv.2 d) [("id", .vstr (eventInitId r))]⟩

/-- Modelled from the spec: `StreamName` (module stream.py is absent
from the provided sources; only its tests and callers are present). A
value of a non-empty `category` and a non-empty `stream_id`. -/
structure StreamName where
  category : String
  stream_id : String
  deriving DecidableEq, Repr

/-- Modelled from the spec: `StreamName` construction fails with a
validation error if `category` or `stream_id` is empty, and otherwise
produces the value. -/
def StreamName.make (category stream_id : String) : Except String StreamName :=
  if category = "" then .error "category must not be empty"
  else if stream_id = "" then .error "stream_id must not be empty"
  else .ok ⟨category, stream_id⟩

/-- Modelled from the spec: `str(StreamName)`, the wire form
`"{category}-{stream_id}"`. -/
def StreamName.render (s : StreamName) : String :=
  s.category ++ "-" ++ s.stream_id

/-- Split a character list at the first `'-'`: `none` when no hyphen is
present, otherwise the hyphen-free prefix and everything after the first
hyphen. -/
def splitFirstHyphen : List Char → Option (List Char × List Char)
  | [] => none
  | c :: cs =>
    if c = '-' then some ([], cs)
    else
      match splitFirstHyphen cs with
      | none => none
      | some (a, b) => some (c :: a, b)

/-- Modelled from the spec: `StreamName.parse` fails with a validation
error when the input contains no hyphen, and otherwise splits at the
first hyphen, everything before it becoming `category` and everything
after it (further hyphens included) becoming `stream_id`. -/
def StreamName.parse (s : String) : Except String (String × String) :=
  match splitFirstHyphen s.data with
  | none => .error "invalid stream name format"
  | some (a, b) => .ok (⟨a⟩, ⟨b⟩)

/-- Add a key to a dict only when it is absent, leaving the dict
unchanged otherwise. -/
def addIfAbsent (k : String) (v : Value) (d : Dict) : Dict :=
  match dictLookup k d with
  | some _ => d
  | none => dictInsert k v d

/-- Modelled from the spec: serialization of `Metadata` at append time
(modules metadata.py and client.py are absent from the provided
sources). The caller-supplied key/value pairs are written under their
PascalCase keys, and the standard fields — creation timestamp under
`"Created"`, originating host under `"ClientHostName"`, the keys the
integration test checks — are added when absent. -/
def metadataSerialize (extra : Dict) (created host : Value) : Dict :=
  addIfAbsent "ClientHostName" host
    (addIfAbsent "Created" created
      (extra.foldl (fun d kv => dictInsert (toPascalCase kv.1) kv.2 d) []))

/-- The spec's description of the field-name transform as a single
left-to-right pass: underscores are dropped and start a new segment,
each segment is title-cased in place (an alphabetic character is
uppercased at a segment start or after an uncased character, lowercased
after a cased one). Stated independently of `split`/`join` so that
agreement with `toPascalCase` is a theorem, not a restatement. -/
def pascalScan : Bool → List Char → List Char
  | _, [] => []
  | prev, c :: cs =>
    if c = '_' then pascalScan false cs
    else if c.isAlpha then
      (if prev then c.toLower else c.toUpper) :: pascalScan true cs
    else c :: pascalScan false cs

/-- The property claimed of `Event.to_dict` for an event instance: the
output maps `"Id"` to the event's identifier (the value of its `id`
field), has exactly one entry per public field, and maps each public
field's transformed name to that field's unchanged value. -/
def c2Claim (e : PyEvent) : Prop :=
  dictLookup "Id" e.toDict = dictLookup "id" e.fields ∧
  e.toDict.length = e.publicFields.length ∧
  ∀ kv ∈ e.publicFields, dictLookup (toPascalCase kv.1) e.toDict = some kv.2

instance (e : PyEvent) : Decidable (c2Claim e) := by
  unfold c2Claim; infer_instance

/-- An event whose two public fields `ab` and `ab_` collide under the
field-name transform. -/
def evCollide : PyEvent :=
  ⟨[("id", .vstr "00000000-0000-4000-8000-000000000000"),
    ("ab", .vint 1), ("ab_", .vint 2)]⟩

/-- The event of the spec's serialization scenario: a
`RecordingFinished` with `recording_id`, `duration`, `file_path`
fields (the duration rendered as an integer value; the carrier of the
value is immaterial to the naming convention). -/
def evRecording : PyEvent :=
  ⟨[("id", .vstr "b27f9322-7d73-4d98-a605-a731a2c373c6"),
    ("recording_id", .vstr "rec-123"), ("duration", .vint 120),
    ("file_path", .vstr "/recordings/rec-123.mp4")]⟩

/-- An event with a private field, for the private-field exclusion
claim. -/
def evPrivate : PyEvent :=
  ⟨[("id", .vstr "b27f9322-7d73-4d98-a605-a731a2c373c6"),
    ("recording_id", .vstr "rec-123"), ("_internal", .vint 7)]⟩


theorem dictLookup_insert_self (k : String) (v : Value) (d : Dict) :
    dictLookup k (dictInsert k v d) = some v := by
  induction d with
  | nil => simp [dictInsert, dictLookup]
  | cons hd tl ih =>
    obtain ⟨k', v'⟩ := hd
    by_cases h : k' = k <;> simp [dictInsert, dictLookup, h, ih]

theorem dictLookup_insert_ne {k k' : String} (h : k ≠ k') (v : Value) (d : Dict) :
    dictLookup k (dictInsert k' v d) = dictLookup k d := by
  induction d with
  | nil => simp [dictInsert, dictLookup, Ne.symm h]
  | cons hd tl ih =>
    obtain ⟨k₀, v₀⟩ := hd
    by_cases h₀ : k₀ = k'
    · subst h₀
      simp [dictInsert, dictLookup, Ne.symm h]
    · by_cases h₁ : k₀ = k <;> simp [dictInsert, dictLookup, h₀, h₁, h, ih]

theorem dictInsert_of_not_mem {k : String} {d : Dict}
    (h : k ∉ d.map Prod.fst) (v : Value) :
    dictInsert k v d = d ++ [(k, v)] := by
  induction d with
  | nil => simp [dictInsert]
  | cons hd tl ih =>
    obtain ⟨k', v'⟩ := hd
    simp only [List.map_cons, List.mem_cons] at h
    push_neg at h
    simp [dictInsert, Ne.symm h.1, ih h.2]

theorem mem_keys_dictInsert {k : String} {d : Dict}
    (h : k ∈ d.map Prod.fst) (k' : String) (v : Value) :
    k ∈ (dictInsert k' v d).map Prod.fst := by
  induction d with
  | nil => simp at h
  | cons hd tl ih =>
    obtain ⟨k₀, v₀⟩ := hd
    simp only [List.map_cons, List.mem_cons] at h
    by_cases h₀ : k₀ = k'
    · rcases h with h | h
      · subst h₀; subst h; simp [dictInsert]
      · subst h₀; simp [dictInsert, h]
    · rcases h with h | h
      · simp [dictInsert, h₀, h]
      · simp [dictInsert, h₀, ih h]

theorem self_mem_keys_dictInsert (k : String) (v : Value) (d : Dict) :
    k ∈ (dictInsert k v d).map Prod.fst := by
  induction d with
  | nil => simp [dictInsert]
  | cons hd tl ih =>
    obtain ⟨k₀, v₀⟩ := hd
    by_cases h₀ : k₀ = k <;> simp [dictInsert, h₀, ih]

theorem dictLookup_of_mem_nodup {k : String} {v : Value} {d : Dict}
    (hmem : (k, v) ∈ d) (hnd : (d.map Prod.fst).Nodup) :
    dictLookup k d = some v := by
  induction d with
  | nil => simp at hmem
  | cons hd tl ih =>
    obtain ⟨k₀, v₀⟩ := hd
    simp only [List.map_cons, List.nodup_cons] at hnd
    rcases List.mem_cons.mp hmem with h | h
    · obtain ⟨hk, hv⟩ := Prod.mk.injEq .. ▸ h
      subst hk; subst hv
      simp [dictLookup]
    · have hk : k₀ ≠ k := by
        rintro rfl
        exact hnd.1 (List.mem_map.mpr ⟨(k₀, v), h, rfl⟩)
      simp [dictLookup, hk, ih h hnd.2]

theorem mem_of_dictLookup {k : String} {v : Value} {d : Dict}
    (h : dictLookup k d = some v) : (k, v) ∈ d := by
  induction d with
  | nil => simp [dictLookup] at h
  | cons hd tl ih =>
    obtain ⟨k₀, v₀⟩ := hd
    by_cases h₀ : k₀ = k
    · subst h₀
      simp [dictLookup] at h
      simp [h]
    · simp [dictLookup, h₀] at h
      exact List.mem_cons_of_mem _ (ih h)

theorem not_mem_keys_of_dictLookup_none {k : String} {d : Dict}
    (h : dictLookup k d = none) : k ∉ d.map Prod.fst := by
  induction d with
  | nil => simp
  | cons hd tl ih =>
    obtain ⟨k₀, v₀⟩ := hd
    by_cases h₀ : k₀ = k
    · simp [dictLookup, h₀] at h
    · simp [dictLookup, h₀] at h
      simp only [List.map_cons, List.mem_cons]
      push_neg
      exact ⟨fun hk => h₀ hk.symm, ih h⟩

theorem foldl_dictInsert_eq_append (f : String → String) :
    ∀ (fs : Dict) (acc : Dict),
      (fs.map (fun kv => f kv.1)).Nodup →
      (∀ kv ∈ fs, f kv.1 ∉ acc.map Prod.fst) →
      fs.foldl (fun d kv => dictInsert (f kv.1) kv.2 d) acc =
        acc ++ fs.map (fun kv => (f kv.1, kv.2)) := by
  intro fs
  induction fs with
  | nil => intro acc _ _; simp
  | cons hd tl ih =>
    intro acc hnd hfresh
    obtain ⟨k, v⟩ := hd
    simp only [List.map_cons, List.nodup_cons] at hnd
    have hk : f k ∉ acc.map Prod.fst := hfresh (k, v) (List.mem_cons_self _ _)
    have hstep : dictInsert (f k) v acc = acc ++ [(f k, v)] :=
      dictInsert_of_not_mem hk v
    have hfresh' : ∀ kv ∈ tl, f kv.1 ∉ (acc ++ [(f k, v)]).map Prod.fst := by
      intro kv hkv
      simp only [List.map_append, List.mem_append, List.map_cons, List.map_nil,
        List.mem_singleton]
      push_neg
      refine ⟨hfresh kv (List.mem_cons_of_mem _ hkv), ?_⟩
      intro hEq
      exact hnd.1 (List.mem_map.mpr ⟨kv, hkv, hEq⟩)
    calc ((k, v) :: tl).foldl (fun d kv => dictInsert (f kv.1) kv.2 d) acc
        = tl.foldl (fun d kv => dictInsert (f kv.1) kv.2 d) (acc ++ [(f k, v)]) := by
          simp [List.foldl_cons, hstep]
      _ = (acc ++ [(f k, v)]) ++ tl.map (fun kv => (f kv.1, kv.2)) :=
          ih _ hnd.2 hfresh'
      _ = acc ++ ((k, v) :: tl).map (fun kv => (f kv.1, kv.2)) := by
          simp [List.append_assoc]

theorem toDictLoop_eq_foldl :
    ∀ (fs : Dict) (acc : Dict),
      toDictLoop acc fs =
        (fs.filter (fun kv => !(startsWithUnderscore kv.1))).foldl
          (fun d kv => dictInsert (toPascalCase kv.1) kv.2 d) acc := by
  intro fs
  induction fs with
  | nil => intro acc; simp [toDictLoop]
  | cons hd tl ih =>
    intro acc
    obtain ⟨k, v⟩ := hd
    by_cases h : startsWithUnderscore k
    · simp [toDictLoop, h, List.filter_cons, ih]
    · simp [toDictLoop, h, List.filter_cons, ih]

/-- Under pairwise-distinct transformed keys, `to_dict` is exactly the
public fields, each under its transformed name, in order. -/
theorem toDict_eq_map {e : PyEvent}
    (hnd : (e.publicFields.map (fun kv => toPascalCase kv.1)).Nodup) :
    e.toDict = e.publicFields.map (fun kv => (toPascalCase kv.1, kv.2)) := by
  have h := toDictLoop_eq_foldl e.fields []
  rw [PyEvent.toDict, h]
  have := foldl_dictInsert_eq_append (fun s => toPascalCase s)
    (e.fields.filter (fun kv => !(startsWithUnderscore kv.1))) [] hnd
    (by intro kv _; simp)
  simpa [PyEvent.publicFields] using this

theorem mem_keys_toDictLoop_of_acc {k : String} :
    ∀ (fs acc : Dict), k ∈ acc.map Prod.fst →
      k ∈ (toDictLoop acc fs).map Prod.fst := by
  intro fs
  induction fs with
  | nil => intro acc h; simpa [toDictLoop] using h
  | cons hd tl ih =>
    intro acc h
    obtain ⟨k₀, v₀⟩ := hd
    by_cases h₀ : startsWithUnderscore k₀
    · simpa [toDictLoop, h₀] using ih acc h
    · simpa [toDictLoop, h₀] using ih _ (mem_keys_dictInsert h _ _)

theorem mem_keys_toDictLoop_of_public {kv : String × Value} :
    ∀ (fs acc : Dict), kv ∈ fs → startsWithUnderscore kv.1 = false →
      toPascalCase kv.1 ∈ (toDictLoop acc fs).map Prod.fst := by
  intro fs
  induction fs with
  | nil => intro acc h _; simp at h
  | cons hd tl ih =>
    intro acc hmem hpub
    obtain ⟨k₀, v₀⟩ := hd
    rcases List.mem_cons.mp hmem with h | h
    · subst h
      simp only [toDictLoop, hpub, Bool.false_eq_true, if_false]
      exact mem_keys_toDictLoop_of_acc tl _ (self_mem_keys_dictInsert _ _ _)
    · by_cases h₀ : startsWithUnderscore k₀
      · simpa [toDictLoop, h₀] using ih _ h hpub
      · simpa [toDictLoop, h₀] using ih _ h hpub

theorem titleJoin_eq_pascalScan :
    ∀ (cs : List Char) (b : Bool),
      titleAux b (splitU cs).1 ++
        List.flatten (((splitU cs).2).map (fun g => titleAux false g)) =
      pascalScan b cs := by
  intro cs
  induction cs with
  | nil => intro b; simp [splitU, titleAux, pascalScan]
  | cons c cs ih =>
    intro b
    by_cases hc : c = '_'
    · subst hc
      simp only [splitU, if_pos rfl, List.map_cons, List.flatten_cons, pascalScan]
      simpa [titleAux] using ih false
    · by_cases ha : c.isAlpha
      · simp only [splitU, if_neg hc, pascalScan, if_neg hc, if_pos ha,
          titleAux, List.cons_append]
        exact congrArg _ (ih true)
      · simp only [splitU, if_neg hc, pascalScan, if_neg hc, if_neg ha,
          titleAux, List.cons_append]
        exact congrArg _ (ih false)

theorem splitU_of_no_underscore :
    ∀ {cs : List Char}, '_' ∉ cs → splitU cs = (cs, []) := by
  intro cs
  induction cs with
  | nil => intro _; simp [splitU]
  | cons c cs ih =>
    intro h
    simp only [List.mem_cons] at h
    push_neg at h
    simp [splitU, Ne.symm h.1, ih h.2]

theorem splitFirstHyphen_of_no_hyphen :
    ∀ {cs : List Char}, '-' ∉ cs → splitFirstHyphen cs = none := by
  intro cs
  induction cs with
  | nil => intro _; simp [splitFirstHyphen]
  | cons c cs ih =>
    intro h
    simp only [List.mem_cons] at h
    push_neg at h
    simp [splitFirstHyphen, Ne.symm h.1, ih h.2]

theorem splitFirstHyphen_append {a : List Char} (b : List Char)
    (ha : '-' ∉ a) :
    splitFirstHyphen (a ++ '-' :: b) = some (a, b) := by
  induction a with
  | nil => simp [splitFirstHyphen]
  | cons c cs ih =>
    simp only [List.mem_cons] at ha
    push_neg at ha
    simp [splitFirstHyphen, Ne.symm ha.1, ih ha.2]

theorem hexChar_mem (n : Nat) : hexChar n ∈ hexDigits := by
  have h : n % 16 < 16 := Nat.mod_lt _ (by norm_num)
  rw [hexChar]
  generalize n % 16 = m at h
  interval_cases m <;> decide

theorem not_hyphen_mem_uuidGroup (r s l : Nat) : '-' ∉ uuidGroup r s l := by
  intro h
  obtain ⟨i, _, hEq⟩ := List.mem_map.mp h
  have := hexChar_mem (uuid4Nibble r (s + i))
  rw [hEq] at this
  exact absurd this (by decide)

theorem length_uuidGroup (r s l : Nat) : (uuidGroup r s l).length = l := by
  simp [uuidGroup]

theorem count_hyphen_uuidGroup (r s l : Nat) :
    (uuidGroup r s l).count '-' = 0 :=
  List.count_eq_zero.mpr (not_hyphen_mem_uuidGroup r s l)

theorem mem_uuidGroup_hex {r s l : Nat} {c : Char} (h : c ∈ uuidGroup r s l) :
    c ∈ hexDigits := by
  obtain ⟨i, _, hEq⟩ := List.mem_map.mp h
  rw [← hEq]
  exact hexChar_mem _

theorem mem_uuid4String {r : Nat} {c : Char} (h : c ∈ (uuid4String r).data) :
    c ∈ hexDigits ∨ c = '-' := by
  have step : ∀ {A g : List Char}, c ∈ A ++ '-' :: g →
      c ∈ A ∨ c = '-' ∨ c ∈ g := by
    intro A g hm
    rcases List.mem_append.mp hm with hm | hm
    · exact Or.inl hm
    · rcases List.mem_cons.mp hm with hm | hm
      · exact Or.inr (Or.inl hm)
      · exact Or.inr (Or.inr hm)
  simp only [uuid4String] at h
  rcases step h with h | h | h
  · rcases step h with h | h | h
    · rcases step h with h | h | h
      · rcases step h with h | h | h
        · exact Or.inl (mem_uuidGroup_hex h)
        · exact Or.inr h
        · exact Or.inl (mem_uuidGroup_hex h)
      · exact Or.inr h
      · exact Or.inl (mem_uuidGroup_hex h)
    · exact Or.inr h
    · exact Or.inl (mem_uuidGroup_hex h)
  · exact Or.inr h
  · exact Or.inl (mem_uuidGroup_hex h)

theorem hex_toLower_fixes : ∀ c ∈ hexDigits, Char.toLower c = c := by decide

theorem lower_fixes {cs : List Char} (h : ∀ c ∈ cs, c.toLower = c) :
    cs.map Char.toLower = cs := by
  induction cs with
  | nil => rfl
  | cons c cs ih =>
    simp only [List.mem_cons, forall_eq_or_imp] at h
    simp [h.1, ih h.2]

theorem eventInitId_eq_uuid4String (r : Nat) :
    eventInitId r = uuid4String r := by
  rw [eventInitId, pythonLower]
  have h : ∀ c ∈ (uuid4String r).data, c.toLower = c := by
    intro c hc
    rcases mem_uuid4String hc with h | h
    · exact hex_toLower_fixes c h
    · subst h; decide
  rw [lower_fixes h]

theorem length_uuid4String_data (r : Nat) : (uuid4String r).data.length = 36 := by
  simp [uuid4String, length_uuidGroup]

theorem count_hyphen_uuid4String (r : Nat) :
    (uuid4String r).data.count '-' = 4 := by
  simp [uuid4String, List.count_append, List.count_cons,
    count_hyphen_uuidGroup]

theorem pythonLower_uuid4String (r : Nat) :
    pythonLower (uuid4String r) = uuid4String r := by
  rw [pythonLower]
  have h : ∀ c ∈ (uuid4String r).data, c.toLower = c := by
    intro c hc
    rcases mem_uuid4String hc with h | h
    · exact hex_toLower_fixes c h
    · subst h; decide
  rw [lower_fixes h]

theorem parse_of_no_hyphen {s : String} (h : '-' ∉ s.data) :
    StreamName.parse s = .error "invalid stream name format" := by
  rw [StreamName.parse, splitFirstHyphen_of_no_hyphen h]

theorem parse_append {a : String} (b : String) (ha : '-' ∉ a.data) :
    StreamName.parse (a ++ "-" ++ b) = .ok (a, b) := by
  obtain ⟨ad⟩ := a
  obtain ⟨bd⟩ := b
  have hdata : ((⟨ad⟩ ++ "-" ++ ⟨bd⟩ : String)).data = ad ++ '-' :: bd := by
    show (ad ++ ['-']) ++ bd = ad ++ '-' :: bd
    simp
  rw [StreamName.parse, hdata, splitFirstHyphen_append bd ha]

theorem mem_addIfAbsent {x : String × Value} {d : Dict}
    (h : x ∈ d) (k : String) (v : Value) : x ∈ addIfAbsent k v d := by
  rw [addIfAbsent]
  cases hl : dictLookup k d with
  | some w => exact h
  | none =>
    rw [dictInsert_of_not_mem (not_mem_keys_of_dictLookup_none hl) v]
    exact List.mem_append_left _ h

theorem dictLookup_addIfAbsent_self (k : String) (v : Value) (d : Dict) :
    ∃ w, dictLookup k (addIfAbsent k v d) = some w := by
  rw [addIfAbsent]
  cases hl : dictLookup k d with
  | some w => exact ⟨w, hl⟩
  | none => exact ⟨v, dictLookup_insert_self k v d⟩

theorem dictLookup_addIfAbsent_ne {k k' : String} (h : k ≠ k')
    (v : Value) (d : Dict) :
    dictLookup k (addIfAbsent k' v d) = dictLookup k d := by
  rw [addIfAbsent]
  cases hl : dictLookup k' d with
  | some w => rfl
  | none => exact dictLookup_insert_ne h v d

theorem toDictLoopM_eq :
    ∀ (fs acc : Dict) (e : PyEvent),
      toDictLoopM acc fs e = Except.ok (toDictLoop acc fs, e) := by
  intro fs
  induction fs with
  | nil => intro acc e; rfl
  | cons hd tl ih =>
    intro acc e
    obtain ⟨k, v⟩ := hd
    by_cases h : startsWithUnderscore k <;>
      simp [toDictLoopM, toDictLoop, h, ih]

/-- Claim C1: for every non-empty category containing no hyphen and
every non-empty stream id, parsing the rendered form of the constructed
`StreamName` yields back exactly the pair `(category, stream_id)`. -/
theorem streamName_roundtrip (c s : String) (hc : c ≠ "") (hs : s ≠ "")
    (hnh : '-' ∉ c.data) :
    ∀ sn, StreamName.make c s = .ok sn →
      StreamName.parse (StreamName.render sn) = .ok (c, s) := by
  intro sn hsn
  rw [StreamName.make, if_neg hc, if_neg hs] at hsn
  injection hsn with h
  subst h
  exact parse_append s hnh

/-- Witness for C1 at the spec's scenario pair. -/
theorem streamName_roundtrip_witness :
    StreamName.parse
        (StreamName.render ⟨"Recording", "b27f9322-7d73-4d98-a605-a731a2c373c6"⟩) =
      .ok ("Recording", "b27f9322-7d73-4d98-a605-a731a2c373c6") :=
  streamName_roundtrip "Recording" "b27f9322-7d73-4d98-a605-a731a2c373c6"
    (by decide) (by decide) (by decide)
    ⟨"Recording", "b27f9322-7d73-4d98-a605-a731a2c373c6"⟩ rfl

/-- Claim C2, as amended: for every event instance whose field dict
contains the key `id` and whose public field names are mapped to
pairwise-distinct keys by the transform, `to_dict` maps `"Id"` to the
identifier and has exactly one transformed key per public field, each
holding the field's unchanged value. (As stated, over all events, the
claim fails: see the counterexample with colliding field names.) -/
theorem toDict_c2_amended (e : PyEvent)
    (hnd : (e.publicFields.map (fun kv => toPascalCase kv.1)).Nodup)
    (hid : dictLookup "id" e.fields ≠ none) :
    c2Claim e := by
  obtain ⟨v, hv⟩ : ∃ v, dictLookup "id" e.fields = some v := by
    cases h : dictLookup "id" e.fields with
    | none => exact absurd h hid
    | some v => exact ⟨v, rfl⟩
  have hmem : ("id", v) ∈ e.fields := mem_of_dictLookup hv
  have hpubmem : ("id", v) ∈ e.publicFields := by
    rw [PyEvent.publicFields]
    refine List.mem_filter.mpr ⟨hmem, ?_⟩
    show (!startsWithUnderscore "id") = true
    decide
  have hmap := toDict_eq_map hnd
  have hkeys : e.toDict.map Prod.fst =
      e.publicFields.map (fun kv => toPascalCase kv.1) := by
    rw [hmap, List.map_map]
    rfl
  have hndKeys : (e.toDict.map Prod.fst).Nodup := by
    rw [hkeys]; exact hnd
  refine ⟨?_, ?_, ?_⟩
  · rw [hv]
    have hId : ("Id", v) ∈ e.toDict := by
      rw [hmap]
      refine List.mem_map.mpr ⟨("id", v), hpubmem, ?_⟩
      show (toPascalCase "id", v) = ("Id", v)
      rw [show toPascalCase "id" = "Id" by decide]
    exact dictLookup_of_mem_nodup hId hndKeys
  · rw [hmap, List.length_map]
  · intro kv hkv
    have hm : (toPascalCase kv.1, kv.2) ∈ e.toDict := by
      rw [hmap]
      exact List.mem_map.mpr ⟨kv, hkv, rfl⟩
    exact dictLookup_of_mem_nodup hm hndKeys

/-- Counterexample to C2 as stated: the event with public fields `ab`
and `ab_` (which the transform sends to the same key) does not satisfy
the claimed shape — its `to_dict` has fewer entries than it has public
fields and loses the value of `ab`. -/
theorem toDict_c2_counterexample : ¬ c2Claim evCollide := by decide

/-- Witness for the amended C2 at the spec's serialization scenario. -/
theorem toDict_c2_amended_witness : c2Claim evRecording :=
  toDict_c2_amended evRecording (by decide) (by decide)

/-- Claim C3: the field-name transform maps `id` to the literal `"Id"`,
maps any other field name by title-casing each underscore-delimited
segment and concatenating the segments with no separator (stated as the
single left-to-right pass `pascalScan`), and maps a field name with no
underscore to that single word title-cased. -/
theorem toPascalCase_spec :
    toPascalCase "id" = "Id" ∧
    (∀ s : String, s ≠ "id" → toPascalCase s = ⟨pascalScan false s.data⟩) ∧
    (∀ s : String, '_' ∉ s.data → toPascalCase s = pythonTitle s) := by
  refine ⟨by decide, ?_, ?_⟩
  · intro s hs
    rw [toPascalCase, if_neg hs]
    apply congrArg String.mk
    rw [splitUnderscore]
    simp only [List.map_cons, List.flatten_cons]
    exact titleJoin_eq_pascalScan s.data false
  · intro s hs
    by_cases hid : s = "id"
    · subst hid; decide
    · rw [toPascalCase, if_neg hid, pythonTitle]
      apply congrArg String.mk
      rw [splitUnderscore, splitU_of_no_underscore hs]
      simp

/-- Witness for C3 at concrete field names. -/
theorem toPascalCase_spec_witness :
    toPascalCase "recording_id" = ⟨pascalScan false "recording_id".data⟩ ∧
    toPascalCase "duration" = pythonTitle "duration" :=
  ⟨toPascalCase_spec.2.1 "recording_id" (by decide),
   toPascalCase_spec.2.2 "duration" (by decide)⟩

/-- Claim C4: constructing a `StreamName` fails with a validation error
exactly when the category or the stream id is empty, and on success the
string form of the result is `"{category}-{stream_id}"`. -/
theorem streamName_make_spec (c s : String) :
    ((∃ e, StreamName.make c s = .error e) ↔ c = "" ∨ s = "") ∧
    ∀ sn, StreamName.make c s = .ok sn →
      StreamName.render sn = c ++ "-" ++ s := by
  constructor
  · constructor
    · rintro ⟨e, he⟩
      by_contra hcon
      push_neg at hcon
      rw [StreamName.make, if_neg hcon.1, if_neg hcon.2] at he
      exact Except.noConfusion he
    · rintro (h | h)
      · exact ⟨_, by rw [StreamName.make, if_pos h]⟩
      · by_cases hc : c = ""
        · exact ⟨_, by rw [StreamName.make, if_pos hc]⟩
        · exact ⟨_, by rw [StreamName.make, if_neg hc, if_pos h]⟩
  · intro sn hsn
    by_cases hc : c = ""
    · rw [StreamName.make, if_pos hc] at hsn
      exact Except.noConfusion hsn
    by_cases hs : s = ""
    · rw [StreamName.make, if_neg hc, if_pos hs] at hsn
      exact Except.noConfusion hsn
    · rw [StreamName.make, if_neg hc, if_neg hs] at hsn
      injection hsn with h
      subst h
      rfl

/-- Witness for C4: the spec's construction scenario. -/
theorem streamName_make_witness :
    StreamName.render ⟨"Recording", "b27f9322-7d73-4d98-a605-a731a2c373c6"⟩ =
      "Recording-b27f9322-7d73-4d98-a605-a731a2c373c6" :=
  ((streamName_make_spec "Recording" "b27f9322-7d73-4d98-a605-a731a2c373c6").2
    ⟨"Recording", "b27f9322-7d73-4d98-a605-a731a2c373c6"⟩ rfl).trans
    (by decide)

/-- Claim C5: `StreamName.parse` fails with a validation error on every
input without a hyphen, and on every input with a hyphen it splits at
the first hyphen only — the hyphen-free prefix becomes the category and
everything after the first hyphen (further hyphens included) becomes
the stream id. -/
theorem streamName_parse_spec (s : String) :
    ('-' ∉ s.data → ∃ e, StreamName.parse s = .error e) ∧
    ∀ a b : String, '-' ∉ a.data → s = a ++ "-" ++ b →
      StreamName.parse s = .ok (a, b) := by
  constructor
  · intro h
    exact ⟨_, parse_of_no_hyphen h⟩
  · intro a b ha hs
    subst hs
    exact parse_append b ha

/-- Witness for C5: the spec's parse scenario, an id that itself
contains hyphens, and a hyphen-free invalid input. -/
theorem streamName_parse_witness :
    StreamName.parse "Recording-12345" = .ok ("Recording", "12345") ∧
    StreamName.parse "Task-b27f9322-7d73-4d98-a605-a731a2c373c6" =
      .ok ("Task", "b27f9322-7d73-4d98-a605-a731a2c373c6") ∧
    ∃ e, StreamName.parse "InvalidFormat" = .error e :=
  ⟨(streamName_parse_spec "Recording-12345").2 "Recording" "12345"
      (by decide) (by decide),
   (streamName_parse_spec "Task-b27f9322-7d73-4d98-a605-a731a2c373c6").2
      "Task" "b27f9322-7d73-4d98-a605-a731a2c373c6" (by decide) (by decide),
   (streamName_parse_spec "InvalidFormat").1 (by decide)⟩

/-- Claim C6: for every event created via `Event.__init__`, whatever
the random draw, the assigned identifier is a 36-character string,
contains exactly 4 hyphens, consists only of (lowercase) hexadecimal
digits and hyphens, and is fixed by lowercasing (entirely lowercase). -/
theorem event_id_format (r : Nat) :
    (eventInitId r).length = 36 ∧
    (eventInitId r).data.count '-' = 4 ∧
    (∀ c ∈ (eventInitId r).data, c ∈ hexDigits ∨ c = '-') ∧
    pythonLower (eventInitId r) = eventInitId r := by
  have h := eventInitId_eq_uuid4String r
  refine ⟨?_, ?_, ?_, ?_⟩
  · rw [h]
    show (uuid4String r).data.length = 36
    exact length_uuid4String_data r
  · rw [h]
    exact count_hyphen_uuid4String r
  · rw [h]
    exact fun c hc => mem_uuid4String hc
  · rw [h]
    exact pythonLower_uuid4String r

/-- Claim C7: a field contributes to `to_dict` exactly when its name
does not start with `'_'`: the output is determined by the public
fields alone (private fields are excluded), and every public field's
transformed name occurs among the output keys. -/
theorem toDict_public_only (e : PyEvent) :
    e.toDict = PyEvent.toDict ⟨e.publicFields⟩ ∧
    ∀ kv ∈ e.fields, startsWithUnderscore kv.1 = false →
      toPascalCase kv.1 ∈ e.toDict.map Prod.fst := by
  constructor
  · show toDictLoop [] e.fields = toDictLoop [] e.publicFields
    rw [toDictLoop_eq_foldl e.fields, toDictLoop_eq_foldl e.publicFields,
      PyEvent.publicFields, List.filter_filter]
    simp
  · intro kv hkv hpub
    exact mem_keys_toDictLoop_of_public e.fields [] hkv hpub

/-- Witness for C7: an event with a private `_internal` field; its
public `recording_id` is keyed in the output, and the output equals
that of the event restricted to its public fields. -/
theorem toDict_public_only_witness :
    toPascalCase "recording_id" ∈ (PyEvent.toDict evPrivate).map Prod.fst ∧
    PyEvent.toDict evPrivate = PyEvent.toDict ⟨PyEvent.publicFields evPrivate⟩ :=
  ⟨(toDict_public_only evPrivate).2 ("recording_id", .vstr "rec-123")
      (by decide) (by decide),
   (toDict_public_only evPrivate).1⟩

/-- Claim C8: `to_dict` is pure and total — in the effectful model it
returns the dictionary for every event without an error, leaving the
event itself unchanged, so a second call on the returned state yields
the same result. -/
theorem toDict_pure (e : PyEvent) :
    e.toDictM = Except.ok (e.toDict, e) := by
  rw [PyEvent.toDictM, PyEvent.toDict]
  exact toDictLoopM_eq e.fields [] e

/-- Claim C10: the field-name transform is not injective — `ab`/`ab_`
and `a_b`/`a__b` collide — and an event carrying both `ab` and `ab_`
serializes to fewer entries than it has public fields, the later
field's value overwriting the earlier one's. -/
theorem toPascalCase_not_injective :
    ("ab" : String) ≠ "ab_" ∧ toPascalCase "ab" = toPascalCase "ab_" ∧
    ("a_b" : String) ≠ "a__b" ∧ toPascalCase "a_b" = toPascalCase "a__b" ∧
    (PyEvent.toDict evCollide).length < (PyEvent.publicFields evCollide).length ∧
    dictLookup (toPascalCase "ab") (PyEvent.toDict evCollide) =
      some (.vint 2) := by
  decide

/-- Counterexample to C9 as stated: for the caller-supplied pairs
`ab ↦ 1` and `ab_ ↦ 2`, whose keys the transform sends to the same key
`"Ab"`, the serialized metadata does not contain every caller-supplied
pair — `("Ab", 1)` is overwritten and lost — so the unconditional claim
fails at this append even though the two standard keys are present. -/
theorem metadata_c9_counterexample :
    ¬ ((∃ v, dictLookup "Created"
          (metadataSerialize [("ab", .vint 1), ("ab_", .vint 2)]
            (.vstr "2025-01-01T00:00:00Z") (.vstr "host-1")) = some v) ∧
       (∃ v, dictLookup "ClientHostName"
          (metadataSerialize [("ab", .vint 1), ("ab_", .vint 2)]
            (.vstr "2025-01-01T00:00:00Z") (.vstr "host-1")) = some v) ∧
       ∀ kv ∈ ([("ab", Value.vint 1), ("ab_", Value.vint 2)] : Dict),
         (toPascalCase kv.1, kv.2) ∈
           metadataSerialize [("ab", .vint 1), ("ab_", .vint 2)]
             (.vstr "2025-01-01T00:00:00Z") (.vstr "host-1")) := by
  intro h
  exact absurd (h.2.2 ("ab", .vint 1) (by decide)) (by decide)

/-- Claim C9, as amended: for every append whose caller-supplied keys
are mapped to pairwise-distinct keys by the transform, the serialized
metadata mapping carries the creation-timestamp key `"Created"` and the
originating-host key `"ClientHostName"`, together with every
caller-supplied pair under its transformed key. (As stated, over every
caller-supplied pair unconditionally, the claim fails: see the
counterexample with colliding caller keys.) -/
theorem metadata_serialize_spec (extra : Dict) (created host : Value)
    (hnd : (extra.map (fun kv => toPascalCase kv.1)).Nodup) :
    (∃ v, dictLookup "Created" (metadataSerialize extra created host) = some v) ∧
    (∃ v, dictLookup "ClientHostName" (metadataSerialize extra created host) = some v) ∧
    ∀ kv ∈ extra,
      (toPascalCase kv.1, kv.2) ∈ metadataSerialize extra created host := by
  have hbase : extra.foldl (fun d kv => dictInsert (toPascalCase kv.1) kv.2 d) [] =
      extra.map (fun kv => (toPascalCase kv.1, kv.2)) := by
    simpa using foldl_dictInsert_eq_append (fun k => toPascalCase k) extra []
      hnd (by intro kv _; simp)
  refine ⟨?_, ?_, ?_⟩
  · rw [metadataSerialize]
    obtain ⟨w, hw⟩ := dictLookup_addIfAbsent_self "Created" created
      (extra.foldl (fun d kv => dictInsert (toPascalCase kv.1) kv.2 d) [])
    exact ⟨w, by rw [dictLookup_addIfAbsent_ne (by decide) host, hw]⟩
  · rw [metadataSerialize]
    exact dictLookup_addIfAbsent_self "ClientHostName" host _
  · intro kv hkv
    rw [metadataSerialize]
    refine mem_addIfAbsent (mem_addIfAbsent ?_ _ _) _ _
    rw [hbase]
    exact List.mem_map.mpr ⟨kv, hkv, rfl⟩

/-- Witness for C9 at the integration test's metadata. -/
theorem metadata_serialize_witness :
    (∃ v, dictLookup "Created"
        (metadataSerialize [("test_id", .vstr "integration-test")]
          (.vstr "2025-01-01T00:00:00Z") (.vstr "host-1")) = some v) ∧
    (∃ v, dictLookup "ClientHostName"
        (metadataSerialize [("test_id", .vstr "integration-test")]
          (.vstr "2025-01-01T00:00:00Z") (.vstr "host-1")) = some v) ∧
    ∀ kv ∈ ([("test_id", .vstr "integration-test")] : Dict),
      (toPascalCase kv.1, kv.2) ∈
        metadataSerialize [("test_id", .vstr "integration-test")]
          (.vstr "2025-01-01T00:00:00Z") (.vstr "host-1") :=
  metadata_serialize_spec [("test_id", .vstr "integration-test")]
    (.vstr "2025-01-01T00:00:00Z") (.vstr "host-1") (by decide)

end MicroPlumberd
